import Mathlib

/-!
Shallow embedding of the color plugin (`examples/plugins/color/color.py`)
of the `native-launcher` repository, together with proofs about it.

Modelling conventions:
* Python strings are `List Char`; the text predicates (`str.strip`,
  `str.lower`, the regex classes `\d` and `\s`) are modelled over the ASCII
  range, which covers the plugin's whole grammar.
* Python `float` arithmetic (used by the stdlib `colorsys` module the plugin
  imports) is modelled by exact rational arithmetic over `ℚ`; `int(x)` is
  truncation toward zero, `x % 1.0` is `x - ⌊x⌋`.
* A Python function that can raise is modelled with an `Option` result,
  `none` standing for the raised exception.
* The four `re.match` patterns of `parse_color` are deterministic (every
  quantified class is disjoint from the character that follows it), so each
  regex is embedded as a sequential matcher consuming a longest run per
  token; `re.match` anchors at the start only, which the matchers reproduce
  by returning the unconsumed tail.
-/

/-! ## Character classes and Python string helpers -/

/-- ASCII whitespace, the characters Python's `str.strip` and the regex
class `\s` treat as space. -/
def isSpaceChar (c : Char) : Bool :=
  c.toNat == 32 || c.toNat == 9 || c.toNat == 10 || c.toNat == 13 ||
    c.toNat == 11 || c.toNat == 12

/-- ASCII decimal digit, the regex class `\d`. -/
def isDigitChar (c : Char) : Bool := 48 ≤ c.toNat && c.toNat ≤ 57

/-- Characters matched by the regex class `[0-9a-f]` of the hex pattern. -/
def isLowerHexChar (c : Char) : Bool :=
  (48 ≤ c.toNat && c.toNat ≤ 57) || (97 ≤ c.toNat && c.toNat ≤ 102)

/-- Characters accepted as a hexadecimal digit by Python's `int(-, 16)`:
decimal digits and letters of either case. -/
def isHexChar (c : Char) : Bool :=
  (48 ≤ c.toNat && c.toNat ≤ 57) || (97 ≤ c.toNat && c.toNat ≤ 102) ||
    (65 ≤ c.toNat && c.toNat ≤ 70)

/-- Value of a hexadecimal digit. -/
def hexVal (c : Char) : ℤ :=
  if 48 ≤ c.toNat && c.toNat ≤ 57 then (c.toNat : ℤ) - 48
  else if 97 ≤ c.toNat && c.toNat ≤ 102 then (c.toNat : ℤ) - 87
  else (c.toNat : ℤ) - 55

/-- Python `str.lower` on one ASCII character. -/
def pyToLower (c : Char) : Char :=
  if 65 ≤ c.toNat && c.toNat ≤ 90 then Char.ofNat (c.toNat + 32) else c

/-- Python `str.upper` on one ASCII character. -/
def pyToUpper (c : Char) : Char :=
  if 97 ≤ c.toNat && c.toNat ≤ 122 then Char.ofNat (c.toNat - 32) else c

/-- Python `str.lower`. -/
def pyLower (s : List Char) : List Char := s.map pyToLower

/-- Python `str.upper`. -/
def pyUpper (s : List Char) : List Char := s.map pyToUpper

/-- Python `str.strip()`: drop whitespace from both ends. -/
def pyStrip (s : List Char) : List Char :=
  ((s.dropWhile isSpaceChar).reverse.dropWhile isSpaceChar).reverse

/-- The normalisation `color_str.strip().lower()` performed at the top of
`parse_color`. -/
def pyNorm (s : List Char) : List Char := pyLower (pyStrip s)

/-! ## Digit rendering (Python `format`) -/

/-- Digit character for a value below the base (`0`-`9` then `a`-`f`). -/
def digitChar (n : Nat) : Char :=
  if n < 10 then Char.ofNat (48 + n) else Char.ofNat (87 + n)

/-- Digits of `n` in the given base, most significant first; fuel-structured
so that it evaluates by kernel reduction. -/
def natDigitsAux (base : Nat) : Nat → Nat → List Char
  | 0, _ => []
  | fuel + 1, n =>
    if n < base then [digitChar n]
    else natDigitsAux base fuel (n / base) ++ [digitChar (n % base)]

/-- Digits of `n` in the given base (`2 ≤ base ≤ 16`), most significant
first. -/
def natDigits (base n : Nat) : List Char := natDigitsAux base (n + 1) n

/-- Python `str(n)` for an integer: decimal digits, `-`-signed. -/
def intDec (n : ℤ) : List Char :=
  if n < 0 then '-' :: natDigits 10 n.natAbs else natDigits 10 n.toNat

/-- Python format spec `02x`: lowercase hexadecimal, zero-padded to at least
two characters (the sign counts toward the width). -/
def fmt02x (n : ℤ) : List Char :=
  if n < 0 then '-' :: natDigits 16 n.natAbs
  else if (natDigits 16 n.toNat).length < 2 then
    List.replicate (2 - (natDigits 16 n.toNat).length) '0' ++ natDigits 16 n.toNat
  else natDigits 16 n.toNat

/-! ## The Color Codec: `hex_to_rgb`, `rgb_to_hex` -/

/-- Python slice `t[i : i + 2]`. -/
def pySlice2 (t : List Char) (i : Nat) : List Char := (t.drop i).take 2

/-- Python `int(s, 16)` restricted to strings of at most two characters,
which is all `hex_to_rgb` ever passes to it.  Besides plain hexadecimal
digits, within two characters Python also accepts a signed digit and a
digit padded by one whitespace character; `none` models the raised
`ValueError`. -/
def pyInt16OfSlice : List Char → Option ℤ
  | [] => none
  | [c] => if isHexChar c then some (hexVal c) else none
  | [c1, c2] =>
    if isHexChar c1 && isHexChar c2 then some (16 * hexVal c1 + hexVal c2)
    else if c1 == '+' && isHexChar c2 then some (hexVal c2)
    else if c1 == '-' && isHexChar c2 then some (-(hexVal c2))
    else if isSpaceChar c1 && isHexChar c2 then some (hexVal c2)
    else if isHexChar c1 && isSpaceChar c2 then some (hexVal c1)
    else none
  | _ => none

/-- `hex_to_rgb` from `color.py`: strip every leading `#`, double a
three-character string, then read the slices `[0:2]`, `[2:4]`, `[4:6]` as
hexadecimal integers.  `none` models the `ValueError` Python raises when a
slice is empty or not a hexadecimal numeral. -/
def hex_to_rgb (s : List Char) : Option (ℤ × ℤ × ℤ) :=
  let t0 := s.dropWhile (· == '#')
  let t := if t0.length == 3 then t0.flatMap (fun c => [c, c]) else t0
  match pyInt16OfSlice (pySlice2 t 0), pyInt16OfSlice (pySlice2 t 2),
      pyInt16OfSlice (pySlice2 t 4) with
  | some a, some b, some c => some (a, b, c)
  | _, _, _ => none

/-- `rgb_to_hex` from `color.py`: the f-string `#{r:02x}{g:02x}{b:02x}`. -/
def rgb_to_hex (r g b : ℤ) : List Char :=
  '#' :: (fmt02x r ++ fmt02x g ++ fmt02x b)

/-! ## The Color Codec: HSL conversions

The plugin delegates to the CPython stdlib module `colorsys`
(`rgb_to_hls`, `hls_to_rgb`); those two pure functions are embedded here
from the CPython source, with `float` arithmetic modelled exactly over `ℚ`
(the constants `ONE_THIRD`, `ONE_SIXTH`, `TWO_THIRD` become the exact
rationals they approximate). -/

/-- Python `x % 1.0` for the modulus `1.0`: the fractional part. -/
def pyMod1 (x : ℚ) : ℚ := x - ⌊x⌋

/-- Python `int(x)` on a number: truncation toward zero. -/
def pyTrunc (x : ℚ) : ℤ := if x < 0 then -⌊-x⌋ else ⌊x⌋

/-- Helper `_v(m1, m2, hue)` of `colorsys`. -/
def vComp (m1 m2 hue0 : ℚ) : ℚ :=
  let hue := pyMod1 hue0
  if hue < 1 / 6 then m1 + (m2 - m1) * hue * 6
  else if hue < 1 / 2 then m2
  else if hue < 2 / 3 then m1 + (m2 - m1) * (2 / 3 - hue) * 6
  else m1

/-- `colorsys.hls_to_rgb` (argument order hue, lightness, saturation). -/
def hls_to_rgb (h l s : ℚ) : ℚ × ℚ × ℚ :=
  if s = 0 then (l, l, l)
  else
    let m2 := if l ≤ 1 / 2 then l * (1 + s) else l + s - l * s
    let m1 := 2 * l - m2
    (vComp m1 m2 (h + 1 / 3), vComp m1 m2 h, vComp m1 m2 (h - 1 / 3))

/-- `colorsys.rgb_to_hls` (result order hue, lightness, saturation). -/
def rgb_to_hls (r g b : ℚ) : ℚ × ℚ × ℚ :=
  let maxc := max r (max g b)
  let minc := min r (min g b)
  let sumc := maxc + minc
  let rangec := maxc - minc
  let l := sumc / 2
  if minc = maxc then (0, l, 0)
  else
    let s := if l ≤ 1 / 2 then rangec / sumc else rangec / (2 - sumc)
    let rc := (maxc - r) / rangec
    let gc := (maxc - g) / rangec
    let bc := (maxc - b) / rangec
    let h := if r = maxc then bc - gc
      else if g = maxc then 2 + rc - bc
      else 4 + gc - rc
    (pyMod1 (h / 6), l, s)

/-- `rgb_to_hsl` from `color.py`: normalise to `[0,1]`, convert, and
truncate hue to degrees and saturation/lightness to percent. -/
def rgb_to_hsl (r g b : ℤ) : ℤ × ℤ × ℤ :=
  let t := rgb_to_hls ((r : ℚ) / 255) ((g : ℚ) / 255) ((b : ℚ) / 255)
  (pyTrunc (t.1 * 360), pyTrunc (t.2.2 * 100), pyTrunc (t.2.1 * 100))

/-- `hsl_to_rgb_tuple` from `color.py`: normalise hue by 360 and
saturation/lightness by 100, convert, and truncate channels to `[0,255]`
integers. -/
def hsl_to_rgb_tuple (h s l : ℤ) : ℤ × ℤ × ℤ :=
  let t := hls_to_rgb ((h : ℚ) / 360) ((l : ℚ) / 100) ((s : ℚ) / 100)
  (pyTrunc (t.1 * 255), pyTrunc (t.2.1 * 255), pyTrunc (t.2.2 * 255))

/-! ## The Format Detector: the four patterns of `parse_color` -/

/-- Tokens of the three functional/bare patterns: a literal character, the
class `\s*`, a captured `(\d+)`, and the optional `%?`. -/
inductive Tok where
  | lit (c : Char)
  | ws
  | num
  | pct
deriving DecidableEq

/-- Longest run of digits, its value, and the unconsumed tail: the
behaviour of a greedy `(\d+)` group. -/
def takeNum (s : List Char) : Option (ℤ × List Char) :=
  if (s.takeWhile isDigitChar).isEmpty then none
  else
    some ((s.takeWhile isDigitChar).foldl
      (fun a c => 10 * a + ((c.toNat : ℤ) - 48)) 0, s.dropWhile isDigitChar)

/-- Run one token, returning the captured value (for `num`) and the
unconsumed tail. -/
def runTok : Tok → List Char → Option (Option ℤ × List Char)
  | Tok.lit c, s =>
    match s with
    | [] => none
    | x :: rest => if x == c then some (none, rest) else none
  | Tok.ws, s => some (none, s.dropWhile isSpaceChar)
  | Tok.num, s =>
    match takeNum s with
    | none => none
    | some (v, rest) => some (some v, rest)
  | Tok.pct, s =>
    match s with
    | x :: rest => if x == '%' then some (none, rest) else some (none, x :: rest)
    | [] => some (none, [])

/-- Run a token sequence from the start of the string (`re.match`):
collected captures plus the unconsumed tail. -/
def runToks : List Tok → List Char → Option (List ℤ × List Char)
  | [], s => some ([], s)
  | t :: g, s =>
    match runTok t s with
    | none => none
    | some (v, s1) =>
      match runToks g s1 with
      | none => none
      | some (vs, rest) =>
        some ((match v with | some x => x :: vs | none => vs), rest)

/-- Token sequence of `rgb\s*\(\s*(\d+)\s*,\s*(\d+)\s*,\s*(\d+)\s*\)`. -/
def rgbToks : List Tok :=
  [.lit 'r', .lit 'g', .lit 'b', .ws, .lit '(', .ws, .num, .ws, .lit ',',
    .ws, .num, .ws, .lit ',', .ws, .num, .ws, .lit ')']

/-- Token sequence of the bare pattern `(\d+)\s*,\s*(\d+)\s*,\s*(\d+)`. -/
def tripleToks : List Tok :=
  [.num, .ws, .lit ',', .ws, .num, .ws, .lit ',', .ws, .num]

/-- Token sequence of
`hsl\s*\(\s*(\d+)\s*,\s*(\d+)%?\s*,\s*(\d+)%?\s*\)`. -/
def hslToks : List Tok :=
  [.lit 'h', .lit 's', .lit 'l', .ws, .lit '(', .ws, .num, .ws, .lit ',',
    .ws, .num, .pct, .ws, .lit ',', .ws, .num, .pct, .ws, .lit ')']

/-- The `rgb(...)` pattern: three captures and the unconsumed tail. -/
def matchRgbCore (s : List Char) : Option ((ℤ × ℤ × ℤ) × List Char) :=
  match runToks rgbToks s with
  | some ([a, b, c], rest) => some ((a, b, c), rest)
  | _ => none

/-- The bare comma-triple pattern. -/
def matchTriple (s : List Char) : Option ((ℤ × ℤ × ℤ) × List Char) :=
  match runToks tripleToks s with
  | some ([a, b, c], rest) => some ((a, b, c), rest)
  | _ => none

/-- The `hsl(...)` pattern. -/
def matchHslCore (s : List Char) : Option ((ℤ × ℤ × ℤ) × List Char) :=
  match runToks hslToks s with
  | some ([a, b, c], rest) => some ((a, b, c), rest)
  | _ => none

/-- The anchored hex pattern `^#?([0-9a-f]{3}|[0-9a-f]{6})$`, returning the
captured group (without `#`). -/
def matchHexFull (s : List Char) : Option (List Char) :=
  let t := match s with
    | '#' :: rest => rest
    | _ => s
  if (t.length == 3 || t.length == 6) && t.all isLowerHexChar then some t
  else none

/-- The body of `parse_color` after its normalisation: the four patterns
tried in order (hex, functional rgb, bare triple, hsl), first match wins.
In the hex branch Python destructures `hex_to_rgb(group)` directly; the
`none` fallthrough there models the exception that destructuring a failure
would raise (`parse_hex_branch_safe` shows it cannot happen). -/
def parseNormalized (t : List Char) : Option (String × ℤ × ℤ × ℤ) :=
  match matchHexFull t with
  | some hx =>
    match hex_to_rgb hx with
    | some (r, g, b) => some ("hex", r, g, b)
    | none => none
  | none =>
    match matchRgbCore t with
    | some ((r, g, b), _) => some ("rgb", r, g, b)
    | none =>
      match matchTriple t with
      | some ((r, g, b), _) => some ("rgb", r, g, b)
      | none =>
        match matchHslCore t with
        | some ((h, s, l), _) =>
          let v := hsl_to_rgb_tuple h s l
          some ("hsl", v.1, v.2.1, v.2.2)
        | none => none

/-- `parse_color` from `color.py`: strip and lowercase, then try the four
patterns in order; `none` is the `return None` ("unrecognized") outcome. -/
def parse_color (s : List Char) : Option (String × ℤ × ℤ × ℤ) :=
  parseNormalized (pyNorm s)

/-! ## Output generation: `generate_color_results` -/

/-- One element of the `results` list: a title, a subtitle and a shell
command, all plain text. -/
structure ResultEntry where
  title : List Char
  subtitle : List Char
  command : List Char
deriving DecidableEq

/-- The ANSI block preview `█████`. -/
def preview : List Char := "█████".data

/-- A single-quote character (kept out of string literals). -/
def quoteChar : Char := Char.ofNat 39

/-- The copy command template
`echo -n [payload] | wl-copy && notify-send Color Copied [notif]`
with both insertions single-quoted, as built by the f-strings of
`generate_color_results`. -/
def cmdCopy (payload notif : List Char) : List Char :=
  "echo -n ".data ++ [quoteChar] ++ payload ++ [quoteChar] ++
    " | wl-copy && notify-send ".data ++ [quoteChar] ++ "Color Copied".data ++
    [quoteChar] ++ " ".data ++ [quoteChar] ++ notif ++ [quoteChar]

/-- The clamping `max(0, min(255, x))` applied to each channel at the top
of `generate_color_results`. -/
def clamp255 (x : ℤ) : ℤ := max 0 (min 255 x)

/-- The five entries built by `generate_color_results` once the channels
have been clamped; `h`, `s`, `l` are the values `rgb_to_hsl` returned for
the clamped channels. -/
def genCore (r g b h s l : ℤ) : List ResultEntry :=
  let hex_color := pyUpper (rgb_to_hex r g b)
  let rgb_str := "rgb(".data ++ intDec r ++ ", ".data ++ intDec g ++
    ", ".data ++ intDec b ++ ")".data
  let hsl_str := "hsl(".data ++ intDec h ++ ", ".data ++ intDec s ++
    "%, ".data ++ intDec l ++ "%)".data
  let css_var := "--color: ".data ++ hex_color ++ ";".data
  let tailwind_hint := "Use hex ".data ++ hex_color ++ " in Tailwind".data
  [ { title := preview ++ "  ".data ++ hex_color,
      subtitle := "Hex Color • Click to copy".data,
      command := cmdCopy hex_color hex_color },
    { title := preview ++ "  ".data ++ rgb_str,
      subtitle := "RGB Color • Click to copy".data,
      command := cmdCopy rgb_str rgb_str },
    { title := preview ++ "  ".data ++ hsl_str,
      subtitle := "HSL Color • Click to copy".data,
      command := cmdCopy hsl_str hsl_str },
    { title := preview ++ "  ".data ++ css_var,
      subtitle := "CSS Variable • Click to copy".data,
      command := cmdCopy css_var "CSS Variable".data },
    { title := preview ++ "  ".data ++ tailwind_hint,
      subtitle := "Add to tailwind.config.js colors".data,
      command := cmdCopy hex_color "For Tailwind".data } ]

/-- `generate_color_results` from `color.py`: clamp each channel to
`[0,255]`, derive the hex and HSL forms, and emit the five fixed entries.
The `original_format` argument is accepted and ignored, as in the source. -/
def generate_color_results (r g b : ℤ) (original_format : String) :
    List ResultEntry :=
  let r' := clamp255 r
  let g' := clamp255 g
  let b' := clamp255 b
  let hsl := rgb_to_hsl r' g' b'
  genCore r' g' b' hsl.1 hsl.2.1 hsl.2.2

/-! ## Helper lemmas: hexadecimal digits and `fmt02x` -/

lemma natDigitsAux_small (base fuel m : Nat) (hm : m < base) (hf : 0 < fuel) :
    natDigitsAux base fuel m = [digitChar m] := by
  cases fuel with
  | zero => omega
  | succ f => simp [natDigitsAux, hm]

lemma natDigitsAux_two (fuel m : Nat) (h1 : 16 ≤ m) (h2 : m < 256)
    (hf : 2 ≤ fuel) :
    natDigitsAux 16 fuel m = [digitChar (m / 16), digitChar (m % 16)] := by
  obtain ⟨f, rfl⟩ : ∃ f, fuel = f + 1 := ⟨fuel - 1, by omega⟩
  simp only [natDigitsAux]
  rw [if_neg (by omega : ¬ m < 16),
    natDigitsAux_small 16 f (m / 16) (by omega) (by omega)]
  rfl

lemma digitChar_hex (m : Nat) (h : m < 16) :
    isHexChar (digitChar m) = true ∧ hexVal (digitChar m) = (m : ℤ) ∧
      (digitChar m == '#') = false ∧ isLowerHexChar (digitChar m) = true := by
  interval_cases m <;> exact ⟨by decide, by decide, by decide, by decide⟩

lemma fmt02x_eq (n : ℤ) (h0 : 0 ≤ n) (h255 : n ≤ 255) :
    fmt02x n = [digitChar (n.toNat / 16), digitChar (n.toNat % 16)] := by
  rw [fmt02x, if_neg (by omega)]
  by_cases hn : n.toNat < 16
  · rw [natDigits, natDigitsAux_small 16 (n.toNat + 1) n.toNat hn (by omega)]
    rw [if_pos (by simp)]
    have hq : n.toNat / 16 = 0 := by omega
    have hr : n.toNat % 16 = n.toNat := by omega
    rw [hq, hr]
    rfl
  · rw [natDigits, natDigitsAux_two (n.toNat + 1) n.toNat (by omega) (by omega)
      (by omega)]
    rw [if_neg (by simp)]

lemma pyInt16OfSlice_digits (m : Nat) (hm : m ≤ 255) :
    pyInt16OfSlice [digitChar (m / 16), digitChar (m % 16)] = some (m : ℤ) := by
  obtain ⟨hhex1, hval1, -, -⟩ := digitChar_hex (m / 16) (by omega)
  obtain ⟨hhex2, hval2, -, -⟩ := digitChar_hex (m % 16) (by omega)
  simp only [pyInt16OfSlice, hhex1, hhex2, Bool.and_self, if_true, hval1, hval2]
  congr 1
  push_cast
  omega

/-- C3 (claim): for channels in `[0,255]` the hex round-trip is exact. -/
theorem hex_round_trip (r g b : ℤ) (hr0 : 0 ≤ r) (hr1 : r ≤ 255)
    (hg0 : 0 ≤ g) (hg1 : g ≤ 255) (hb0 : 0 ≤ b) (hb1 : b ≤ 255) :
    hex_to_rgb (rgb_to_hex r g b) = some (r, g, b) := by
  rw [rgb_to_hex, fmt02x_eq r hr0 hr1, fmt02x_eq g hg0 hg1, fmt02x_eq b hb0 hb1]
  obtain ⟨-, -, hrHash, -⟩ := digitChar_hex (r.toNat / 16) (by omega)
  show hex_to_rgb ['#', digitChar (r.toNat / 16), digitChar (r.toNat % 16),
    digitChar (g.toNat / 16), digitChar (g.toNat % 16),
    digitChar (b.toNat / 16), digitChar (b.toNat % 16)] = _
  unfold hex_to_rgb
  simp only [List.dropWhile_cons, beq_self_eq_true, if_true, hrHash,
    Bool.false_eq_true, if_false, List.length_cons, List.length_nil, pySlice2,
    List.drop, List.take]
  rw [pyInt16OfSlice_digits r.toNat (by omega),
    pyInt16OfSlice_digits g.toNat (by omega),
    pyInt16OfSlice_digits b.toNat (by omega)]
  simp [Int.toNat_of_nonneg, hr0, hg0, hb0]

/-- C3 (witness): the round-trip at the concrete triple `(255, 87, 51)`. -/
theorem hex_round_trip_witness :
    hex_to_rgb (rgb_to_hex 255 87 51) = some (255, 87, 51) :=
  hex_round_trip 255 87 51 (by decide) (by decide) (by decide) (by decide)
    (by decide) (by decide)

/-! ## C4: acceptance behaviour of `hex_to_rgb` -/

lemma pyInt16_two_hex (a b : Char) (ha : isHexChar a = true)
    (hb : isHexChar b = true) :
    pyInt16OfSlice [a, b] = some (16 * hexVal a + hexVal b) := by
  simp [pyInt16OfSlice, ha, hb]

lemma pyInt16_one_hex (a : Char) (ha : isHexChar a = true) :
    pyInt16OfSlice [a] = some (hexVal a) := by
  simp [pyInt16OfSlice, ha]

/-- Acceptance characterisation of `hex_to_rgb` on hexadecimal input. -/
lemma hex_isSome_iff_aux (t : List Char)
    (hhex : ∀ c ∈ (t.dropWhile (· == '#')).take 6, isHexChar c = true) :
    (hex_to_rgb t).isSome = true ↔
      ((t.dropWhile (· == '#')).length = 3 ∨
        5 ≤ (t.dropWhile (· == '#')).length) := by
  rcases h : t.dropWhile (· == '#') with - | ⟨a, - | ⟨b, - | ⟨c, - | ⟨d, - | ⟨e, rest⟩⟩⟩⟩⟩ <;>
    rw [h] at hhex <;> simp only [List.take] at hhex
  · simp [hex_to_rgb, h, pySlice2, pyInt16OfSlice]
  · simp [hex_to_rgb, h, pySlice2, pyInt16OfSlice]
  · simp [hex_to_rgb, h, pySlice2, pyInt16OfSlice]
  · have ha := hhex a (by simp)
    have hb := hhex b (by simp)
    have hc := hhex c (by simp)
    simp [hex_to_rgb, h, pySlice2, pyInt16_two_hex a a ha ha,
      pyInt16_two_hex b b hb hb, pyInt16_two_hex c c hc hc]
  · simp [hex_to_rgb, h, pySlice2, pyInt16OfSlice]
  · have ha := hhex a (by simp)
    have hb := hhex b (by simp)
    have hc := hhex c (by simp)
    have hd := hhex d (by simp)
    have he := hhex e (by simp)
    have hlen : ((a :: b :: c :: d :: e :: rest).length == 3) = false := by
      simp
    rcases rest with - | ⟨f, rest2⟩
    · simp [hex_to_rgb, h, hlen, pySlice2, pyInt16_two_hex a b ha hb,
        pyInt16_two_hex c d hc hd, pyInt16_one_hex e he]
    · have hf := hhex f (by simp)
      simp [hex_to_rgb, h, hlen, pySlice2, pyInt16_two_hex a b ha hb,
        pyInt16_two_hex c d hc hd, pyInt16_two_hex e f he hf]

/-- C4 (amended): on strings whose first six characters after stripping
leading `#`s are hexadecimal digits, `hex_to_rgb` succeeds exactly when the
stripped length is `3` or at least `5`; lengths `0`, `1`, `2`, `4` fail. -/
theorem hex_to_rgb_accepts_iff (t : List Char)
    (hhex : ∀ c ∈ (t.dropWhile (· == '#')).take 6, isHexChar c = true) :
    (hex_to_rgb t).isSome = true ↔
      ((t.dropWhile (· == '#')).length = 3 ∨
        5 ≤ (t.dropWhile (· == '#')).length) :=
  hex_isSome_iff_aux t hhex

/-- C4 (witness): the amended theorem applied to the five-digit string
`12345`, which `hex_to_rgb` accepts. -/
theorem hex_to_rgb_accepts_iff_witness :
    (hex_to_rgb "12345".data).isSome = true :=
  (hex_to_rgb_accepts_iff "12345".data (by decide)).mpr (by decide)

/-- C4 (counterexample): `hex_to_rgb` returns a triple on a five-digit
string, on a string with trailing non-hex characters (only the first six
characters are read), and on a string with two leading `#`s — all inputs
the claim says must fail. -/
theorem hex_to_rgb_loose_counterexample :
    hex_to_rgb "12345".data = some (18, 52, 5) ∧
      hex_to_rgb "123456zz".data = some (18, 52, 86) ∧
      hex_to_rgb "##fff".data = some (255, 255, 255) :=
  ⟨by decide, by decide, by decide⟩

/-! ## Helper lemmas for the hex branch of `parse_color` -/

lemma lowerHex_isHex (c : Char) (h : isLowerHexChar c = true) :
    isHexChar c = true := by
  simp only [isLowerHexChar, isHexChar, Bool.or_eq_true, Bool.and_eq_true,
    decide_eq_true_eq] at h ⊢
  tauto

lemma lowerHex_ne_hash (c : Char) (h : isLowerHexChar c = true) :
    (c == '#') = false := by
  simp only [beq_eq_false_iff_ne, ne_eq]
  intro hc
  subst hc
  exact absurd h (by decide)

lemma matchHexFull_spec (t hx : List Char) (h : matchHexFull t = some hx) :
    (hx.length = 3 ∨ hx.length = 6) ∧ ∀ c ∈ hx, isLowerHexChar c = true := by
  simp only [matchHexFull] at h
  split at h
  · obtain rfl : _ = hx := Option.some.inj h
    rename_i hcond
    simp only [Bool.and_eq_true, Bool.or_eq_true, beq_iff_eq,
      List.all_eq_true] at hcond
    exact ⟨hcond.1, hcond.2⟩
  · exact absurd h (by simp)

lemma parse_hex_branch_safe_aux (t hx : List Char)
    (h : matchHexFull t = some hx) : (hex_to_rgb hx).isSome = true := by
  obtain ⟨hlen, hall⟩ := matchHexFull_spec t hx h
  have hdw : hx.dropWhile (· == '#') = hx := by
    cases hx with
    | nil => rfl
    | cons a l =>
      rw [List.dropWhile_cons,
        show ((a == '#') = false) from lowerHex_ne_hash a (hall a (by simp))]
      simp
  refine (hex_isSome_iff_aux hx ?_).mpr ?_
  · intro c hc
    rw [hdw] at hc
    exact lowerHex_isHex c (hall c (List.mem_of_mem_take hc))
  · rw [hdw]
    omega

/-- C1 (claim): `parse_color` tries its four patterns in the fixed order
hex, functional `rgb(...)`, bare comma triple, `hsl(...)`, and returns the
result of the first pattern that matches: an anchored hex match is reported
as `hex` regardless of the later patterns, the bare comma triple is reached
only after the `rgb(...)` pattern fails and is tagged `"rgb"`, the hsl
values are converted through `hsl_to_rgb_tuple`, and when no pattern
matches the result is `none`. -/
theorem parse_color_detection_order :
    (∀ s hx, matchHexFull (pyNorm s) = some hx →
      ∃ v, hex_to_rgb hx = some v ∧
        parse_color s = some ("hex", v.1, v.2.1, v.2.2)) ∧
    (∀ s v rest, matchHexFull (pyNorm s) = none →
      matchRgbCore (pyNorm s) = some (v, rest) →
      parse_color s = some ("rgb", v.1, v.2.1, v.2.2)) ∧
    (∀ s v rest, matchHexFull (pyNorm s) = none →
      matchRgbCore (pyNorm s) = none → matchTriple (pyNorm s) = some (v, rest) →
      parse_color s = some ("rgb", v.1, v.2.1, v.2.2)) ∧
    (∀ s v rest, matchHexFull (pyNorm s) = none →
      matchRgbCore (pyNorm s) = none → matchTriple (pyNorm s) = none →
      matchHslCore (pyNorm s) = some (v, rest) →
      parse_color s = some ("hsl", (hsl_to_rgb_tuple v.1 v.2.1 v.2.2).1,
        (hsl_to_rgb_tuple v.1 v.2.1 v.2.2).2.1,
        (hsl_to_rgb_tuple v.1 v.2.1 v.2.2).2.2)) ∧
    (∀ s, matchHexFull (pyNorm s) = none → matchRgbCore (pyNorm s) = none →
      matchTriple (pyNorm s) = none → matchHslCore (pyNorm s) = none →
      parse_color s = none) := by
  refine ⟨?_, ?_, ?_, ?_, ?_⟩
  · intro s hx h
    have hsafe := parse_hex_branch_safe_aux (pyNorm s) hx h
    obtain ⟨⟨v1, v2, v3⟩, hv⟩ := Option.isSome_iff_exists.mp hsafe
    exact ⟨(v1, v2, v3), hv, by simp only [parse_color, parseNormalized, h, hv]⟩
  · rintro s ⟨v1, v2, v3⟩ rest h1 h2
    simp only [parse_color, parseNormalized, h1, h2]
  · rintro s ⟨v1, v2, v3⟩ rest h1 h2 h3
    simp only [parse_color, parseNormalized, h1, h2, h3]
  · rintro s ⟨v1, v2, v3⟩ rest h1 h2 h3 h4
    simp only [parse_color, parseNormalized, h1, h2, h3, h4]
  · intro s h1 h2 h3 h4
    simp only [parse_color, parseNormalized, h1, h2, h3, h4]

/-- C1 (witness): the bare triple `255,0,0` is rejected by the hex and
`rgb(...)` patterns, accepted by the bare comma pattern, and so reported
with format tag `"rgb"`. -/
theorem parse_color_detection_order_witness :
    parse_color "255,0,0".data = some ("rgb", 255, 0, 0) :=
  parse_color_detection_order.2.2.1 "255,0,0".data (255, 0, 0) []
    (by decide) (by decide) (by decide)

/-- C5 (claim): `parse_color` is total: on every input it returns either
`none` ("unrecognized") or a value tagged with one of the three format
names; moreover the internal `hex_to_rgb` destructuring in the hex branch
(the one operation in `parse_color` that could raise) always succeeds on a
string accepted by the anchored hex pattern. -/
theorem parse_color_total :
    (∀ s, parse_color s = none ∨
      ∃ fmt r g b, parse_color s = some (fmt, r, g, b) ∧
        (fmt = "hex" ∨ fmt = "rgb" ∨ fmt = "hsl")) ∧
    (∀ t hx, matchHexFull t = some hx → (hex_to_rgb hx).isSome = true) := by
  constructor
  · intro s
    unfold parse_color parseNormalized
    rcases h1 : matchHexFull (pyNorm s) with - | hx
    · rcases h2 : matchRgbCore (pyNorm s) with - | ⟨⟨v1, v2, v3⟩, rest⟩
      · rcases h3 : matchTriple (pyNorm s) with - | ⟨⟨v1, v2, v3⟩, rest⟩
        · rcases h4 : matchHslCore (pyNorm s) with - | ⟨⟨v1, v2, v3⟩, rest⟩
          · exact Or.inl rfl
          · exact Or.inr ⟨"hsl", _, _, _, rfl, Or.inr (Or.inr rfl)⟩
        · exact Or.inr ⟨"rgb", v1, v2, v3, rfl, Or.inr (Or.inl rfl)⟩
      · exact Or.inr ⟨"rgb", v1, v2, v3, rfl, Or.inr (Or.inl rfl)⟩
    · obtain ⟨⟨w1, w2, w3⟩, hw⟩ :=
        Option.isSome_iff_exists.mp (parse_hex_branch_safe_aux (pyNorm s) hx h1)
      simp only [hw]
      exact Or.inr ⟨"hex", w1, w2, w3, rfl, Or.inl rfl⟩
  · exact parse_hex_branch_safe_aux

/-- C5 (witness): the hex-branch safety clause applied to the concrete
input `fff`. -/
theorem parse_color_total_witness :
    (hex_to_rgb "fff".data).isSome = true :=
  parse_color_total.2 "fff".data "fff".data (by decide)

/-! ## C2, C7: `generate_color_results` -/

lemma clamp255_idem (x : ℤ) : clamp255 (clamp255 x) = clamp255 x := by
  unfold clamp255
  omega

lemma clamp255_bounds (x : ℤ) : 0 ≤ clamp255 x ∧ clamp255 x ≤ 255 := by
  unfold clamp255
  omega

/-- C2 (claim): `generate_color_results` first clamps each channel to
`[0,255]` — its output equals the output on the clamped triple, and every
entry is built by `genCore` from the clamped in-range channels only — and
the triple `(999, 0, 0)` produced by `parse_color` on `rgb(999,0,0)` is
rendered identically to `(255, 0, 0)`. -/
theorem generate_color_results_clamps :
    (∀ (r g b : ℤ) (fmt : String),
      generate_color_results r g b fmt =
        generate_color_results (clamp255 r) (clamp255 g) (clamp255 b) fmt ∧
      generate_color_results r g b fmt =
        genCore (clamp255 r) (clamp255 g) (clamp255 b)
          (rgb_to_hsl (clamp255 r) (clamp255 g) (clamp255 b)).1
          (rgb_to_hsl (clamp255 r) (clamp255 g) (clamp255 b)).2.1
          (rgb_to_hsl (clamp255 r) (clamp255 g) (clamp255 b)).2.2 ∧
      (0 ≤ clamp255 r ∧ clamp255 r ≤ 255) ∧
      (0 ≤ clamp255 g ∧ clamp255 g ≤ 255) ∧
      (0 ≤ clamp255 b ∧ clamp255 b ≤ 255)) ∧
    parse_color "rgb(999,0,0)".data = some ("rgb", 999, 0, 0) ∧
    generate_color_results 999 0 0 "rgb" =
      generate_color_results 255 0 0 "rgb" := by
  refine ⟨fun r g b fmt => ⟨?_, rfl, clamp255_bounds r, clamp255_bounds g,
    clamp255_bounds b⟩, by decide, ?_⟩
  · simp only [generate_color_results, clamp255_idem]
  · have e1 : clamp255 999 = 255 := by decide
    have e2 : clamp255 0 = 0 := by decide
    have e3 : clamp255 255 = 255 := by decide
    simp only [generate_color_results, e1, e2, e3]

/-- C7 (claim): for every input triple and format tag,
`generate_color_results` emits exactly five entries whose subtitles — the
labels identifying the hex, rgb, hsl, CSS-variable and framework-hint
entries — are fixed and in that order; and at `(255, 87, 51)` the hex entry
displays the uppercase value `#FF5733`. -/
theorem generate_color_results_shape :
    (∀ (r g b : ℤ) (fmt : String),
      (generate_color_results r g b fmt).length = 5 ∧
      (generate_color_results r g b fmt).map ResultEntry.subtitle =
        ["Hex Color • Click to copy".data, "RGB Color • Click to copy".data,
          "HSL Color • Click to copy".data,
          "CSS Variable • Click to copy".data,
          "Add to tailwind.config.js colors".data]) ∧
    (generate_color_results 255 87 51 "hex").head?.map ResultEntry.title =
      some (preview ++ "  ".data ++ "#FF5733".data) := by
  exact ⟨fun r g b fmt => ⟨rfl, rfl⟩, by decide⟩

/-! ## C10: `parse_color` normalises its own input -/

lemma toNat_ofNat_valid (n : Nat) (h : n < 55296) :
    (Char.ofNat n).toNat = n := by
  unfold Char.ofNat
  rw [dif_pos (Or.inl h)]
  rfl

lemma isSpaceChar_pyToLower (c : Char) :
    isSpaceChar (pyToLower c) = isSpaceChar c := by
  unfold pyToLower
  split
  · rename_i h
    simp only [Bool.and_eq_true, decide_eq_true_eq] at h
    unfold isSpaceChar
    rw [toNat_ofNat_valid (c.toNat + 32) (by omega), Bool.eq_iff_iff]
    simp only [Bool.or_eq_true, beq_iff_eq]
    omega
  · rfl

lemma pyToLower_idem (c : Char) : pyToLower (pyToLower c) = pyToLower c := by
  by_cases h : 65 ≤ c.toNat ∧ c.toNat ≤ 90
  · have h1 : pyToLower c = Char.ofNat (c.toNat + 32) := by
      unfold pyToLower
      rw [if_pos (by simp only [Bool.and_eq_true, decide_eq_true_eq]; omega)]
    rw [h1]
    unfold pyToLower
    rw [toNat_ofNat_valid (c.toNat + 32) (by omega),
      if_neg (by simp only [Bool.and_eq_true, decide_eq_true_eq]; omega)]
  · have h1 : pyToLower c = c := by
      unfold pyToLower
      rw [if_neg (by simp only [Bool.and_eq_true, decide_eq_true_eq]; omega)]
    rw [h1, h1]

lemma pyLower_idem (s : List Char) : pyLower (pyLower s) = pyLower s := by
  induction s with
  | nil => rfl
  | cons a t ih =>
    simp only [pyLower, List.map_cons] at ih ⊢
    rw [pyToLower_idem, ih]

lemma dropWhile_map_comm (f : Char → Char) (p : Char → Bool)
    (hp : ∀ c, p (f c) = p c) (l : List Char) :
    (l.map f).dropWhile p = (l.dropWhile p).map f := by
  induction l with
  | nil => rfl
  | cons a t ih =>
    simp only [List.map_cons, List.dropWhile_cons, hp a]
    cases hpa : p a with
    | true => simpa [hpa] using ih
    | false => simp [hpa]

lemma pyStrip_pyLower_comm (s : List Char) :
    pyStrip (pyLower s) = pyLower (pyStrip s) := by
  unfold pyStrip pyLower
  rw [dropWhile_map_comm pyToLower isSpaceChar isSpaceChar_pyToLower s,
    ← List.map_reverse,
    dropWhile_map_comm pyToLower isSpaceChar isSpaceChar_pyToLower,
    ← List.map_reverse]

lemma dropWhile_idem (p : Char → Bool) (l : List Char) :
    (l.dropWhile p).dropWhile p = l.dropWhile p := by
  induction l with
  | nil => rfl
  | cons a t ih =>
    rw [List.dropWhile_cons]
    split
    · exact ih
    · rename_i h
      rw [List.dropWhile_cons, if_neg h]

lemma head?_dropWhile_false (p : Char → Bool) (l : List Char) :
    ∀ x ∈ (l.dropWhile p).head?, p x = false := by
  induction l with
  | nil => intro x hx; simp at hx
  | cons a t ih =>
    intro x hx
    rw [List.dropWhile_cons] at hx
    split at hx
    · exact ih x hx
    · rename_i h
      simp only [List.head?_cons, Option.mem_def, Option.some.injEq] at hx
      subst hx
      simpa using h

lemma dropWhile_eq_self_of_head (p : Char → Bool) (l : List Char)
    (h : ∀ x ∈ l.head?, p x = false) : l.dropWhile p = l := by
  cases l with
  | nil => rfl
  | cons a t =>
    rw [List.dropWhile_cons, h a (by simp)]
    simp

lemma pyStrip_idem (s : List Char) : pyStrip (pyStrip s) = pyStrip s := by
  unfold pyStrip
  have h1 : ((((s.dropWhile isSpaceChar).reverse.dropWhile
      isSpaceChar).reverse).dropWhile isSpaceChar) =
      ((s.dropWhile isSpaceChar).reverse.dropWhile isSpaceChar).reverse := by
    apply dropWhile_eq_self_of_head
    intro x hx
    rw [List.head?_reverse] at hx
    rcases hmn : (s.dropWhile isSpaceChar).reverse.dropWhile isSpaceChar
      with - | ⟨y, mt⟩
    · rw [hmn] at hx
      simp at hx
    · have hsuf : (s.dropWhile isSpaceChar).reverse.dropWhile isSpaceChar <:+
          (s.dropWhile isSpaceChar).reverse := List.dropWhile_suffix isSpaceChar
      obtain ⟨u, hu⟩ := hsuf
      have hg : (u ++ (s.dropWhile isSpaceChar).reverse.dropWhile
            isSpaceChar).getLast? =
          ((s.dropWhile isSpaceChar).reverse.dropWhile isSpaceChar).getLast? :=
        List.getLast?_append_of_ne_nil u (by rw [hmn]; simp)
      rw [hu] at hg
      rw [← hg, List.getLast?_reverse] at hx
      exact head?_dropWhile_false isSpaceChar s x hx
  rw [h1, List.reverse_reverse, dropWhile_idem]

/-- C10 (claim): `parse_color` normalises its own input — its result on any
string equals its result on the stripped, lower-cased form of that string,
so inputs with surrounding whitespace or uppercase letters are recognized
identically to their trimmed lower-case forms. -/
theorem parse_color_norm_invariant (s : List Char) :
    parse_color s = parse_color (pyNorm s) := by
  unfold parse_color
  have h : pyNorm (pyNorm s) = pyNorm s := by
    unfold pyNorm
    rw [pyStrip_pyLower_comm (pyStrip s), pyStrip_idem, pyLower_idem]
  rw [h]

/-! ## C6: the `hsl(9, 100%, 60%)` example -/

/-- Evaluation of the hsl branch at hue 9, saturation 100, lightness 60 in
the exact-rational model of the float pipeline: the exact channel values
are `(255, 81.6, 51)`, truncated to `(255, 81, 51)`. -/
lemma hsl_to_rgb_tuple_9_100_60 : hsl_to_rgb_tuple 9 100 60 = (255, 81, 51) := by
  unfold hsl_to_rgb_tuple hls_to_rgb vComp pyMod1 pyTrunc
  norm_num

lemma parse_hsl9_eval :
    parse_color "hsl(9, 100%, 60%)".data = some ("hsl", 255, 81, 51) := by
  have hnorm : pyNorm "hsl(9, 100%, 60%)".data = "hsl(9, 100%, 60%)".data := by
    decide
  have h1 : matchHexFull "hsl(9, 100%, 60%)".data = none := by decide
  have h2 : matchRgbCore "hsl(9, 100%, 60%)".data = none := by decide
  have h3 : matchTriple "hsl(9, 100%, 60%)".data = none := by decide
  have h4 : matchHslCore "hsl(9, 100%, 60%)".data = some ((9, 100, 60), []) := by
    decide
  simp only [parse_color, hnorm, parseNormalized, h1, h2, h3, h4,
    hsl_to_rgb_tuple_9_100_60]

/-- C6 (counterexample): `detect("hsl(9, 100%, 60%)")` is recognized as
`hsl`, but its green channel is `81`, which is not within `±1` of the
claimed `87` (the exact conversion of hsl(9, 100%, 60%) is
`(255, 81.6, 51)`, so no rounding of the float pipeline can reach `86`). -/
theorem parse_hsl_example_counterexample :
    (∃ bl, parse_color "hsl(9, 100%, 60%)".data = some ("hsl", 255, 81, bl)) ∧
      ¬ ((86 : ℤ) ≤ 81 ∧ (81 : ℤ) ≤ 88) :=
  ⟨⟨51, parse_hsl9_eval⟩, by norm_num⟩

/-- C6 (amended): `detect("hsl(9, 100%, 60%)")` returns a recognized result
with format tag `"hsl"`, red `255`, green `81` and blue within `±1` of
`51`: the triple is within tolerance of the exact conversion
`(255, 81.6, 51)`, not of `(255, 87, 51)`. -/
theorem parse_hsl_example_amended :
    ∃ bl, parse_color "hsl(9, 100%, 60%)".data = some ("hsl", 255, 81, bl) ∧
      (50 : ℤ) ≤ bl ∧ bl ≤ 52 :=
  ⟨51, parse_hsl9_eval, by norm_num, by norm_num⟩

/-! ## C9: ranges and truncation of `rgb_to_hsl` -/

lemma pyMod1_bounds (x : ℚ) : 0 ≤ pyMod1 x ∧ pyMod1 x < 1 := by
  unfold pyMod1
  constructor
  · have := Int.floor_le x
    linarith
  · have := Int.lt_floor_add_one x
    linarith

lemma pyTrunc_eq_floor (x : ℚ) (h : 0 ≤ x) : pyTrunc x = ⌊x⌋ := by
  unfold pyTrunc
  rw [if_neg (not_lt.mpr h)]

lemma rgb_to_hls_bounds (r g b : ℚ) (hr0 : 0 ≤ r) (hr1 : r ≤ 1)
    (hg0 : 0 ≤ g) (hg1 : g ≤ 1) (hb0 : 0 ≤ b) (hb1 : b ≤ 1) :
    0 ≤ (rgb_to_hls r g b).1 ∧ (rgb_to_hls r g b).1 < 1 ∧
      0 ≤ (rgb_to_hls r g b).2.1 ∧ (rgb_to_hls r g b).2.1 ≤ 1 ∧
      0 ≤ (rgb_to_hls r g b).2.2 ∧ (rgb_to_hls r g b).2.2 ≤ 1 := by
  have hmax1 : max r (max g b) ≤ 1 := by
    simp only [max_le_iff]
    exact ⟨hr1, hg1, hb1⟩
  have hmax0 : 0 ≤ max r (max g b) := le_trans hr0 (le_max_left _ _)
  have hmin0 : 0 ≤ min r (min g b) := by
    simp only [le_min_iff]
    exact ⟨hr0, hg0, hb0⟩
  have hminmax : min r (min g b) ≤ max r (max g b) :=
    le_trans (min_le_left _ _) (le_max_left _ _)
  simp only [rgb_to_hls]
  split
  · dsimp only
    refine ⟨le_refl 0, by norm_num, ?_, ?_, le_refl 0, by norm_num⟩ <;> linarith
  · rename_i hne
    have hlt : min r (min g b) < max r (max g b) := lt_of_le_of_ne hminmax hne
    have hmaxpos : 0 < max r (max g b) := lt_of_le_of_lt hmin0 hlt
    have hmin1 : min r (min g b) ≤ 1 := le_trans (min_le_left _ _) hr1
    dsimp only
    refine ⟨(pyMod1_bounds _).1, (pyMod1_bounds _).2, by linarith, by linarith,
      ?_, ?_⟩
    · split
      · exact div_nonneg (by linarith) (by linarith)
      · exact div_nonneg (by linarith) (by linarith)
    · split
      · rw [div_le_one (by linarith)]
        linarith
      · rw [div_le_one (by linarith)]
        linarith

/-- C9 (claim): for channels in `[0,255]`, `rgb_to_hsl` truncates — takes
the floor of, never rounds up — the exact transform values: hue lands in
`[0,359]` (so a fractional hue like 359.76° yields 359, never 360) and
saturation and lightness land in `[0,100]`. -/
theorem rgb_to_hsl_truncated_ranges (r g b : ℤ)
    (hr0 : 0 ≤ r) (hr1 : r ≤ 255) (hg0 : 0 ≤ g) (hg1 : g ≤ 255)
    (hb0 : 0 ≤ b) (hb1 : b ≤ 255) :
    rgb_to_hsl r g b =
      (⌊(rgb_to_hls ((r : ℚ) / 255) ((g : ℚ) / 255) ((b : ℚ) / 255)).1 * 360⌋,
        ⌊(rgb_to_hls ((r : ℚ) / 255) ((g : ℚ) / 255) ((b : ℚ) / 255)).2.2 * 100⌋,
        ⌊(rgb_to_hls ((r : ℚ) / 255) ((g : ℚ) / 255) ((b : ℚ) / 255)).2.1 * 100⌋) ∧
      0 ≤ (rgb_to_hsl r g b).1 ∧ (rgb_to_hsl r g b).1 ≤ 359 ∧
      0 ≤ (rgb_to_hsl r g b).2.1 ∧ (rgb_to_hsl r g b).2.1 ≤ 100 ∧
      0 ≤ (rgb_to_hsl r g b).2.2 ∧ (rgb_to_hsl r g b).2.2 ≤ 100 := by
  have hrq : 0 ≤ (r : ℚ) / 255 ∧ (r : ℚ) / 255 ≤ 1 := by
    constructor
    · positivity
    · rw [div_le_one (by norm_num)]
      exact_mod_cast hr1
  have hgq : 0 ≤ (g : ℚ) / 255 ∧ (g : ℚ) / 255 ≤ 1 := by
    constructor
    · positivity
    · rw [div_le_one (by norm_num)]
      exact_mod_cast hg1
  have hbq : 0 ≤ (b : ℚ) / 255 ∧ (b : ℚ) / 255 ≤ 1 := by
    constructor
    · positivity
    · rw [div_le_one (by norm_num)]
      exact_mod_cast hb1
  obtain ⟨hH0, hH1, hL0, hL1, hS0, hS1⟩ :=
    rgb_to_hls_bounds ((r : ℚ) / 255) ((g : ℚ) / 255) ((b : ℚ) / 255)
      hrq.1 hrq.2 hgq.1 hgq.2 hbq.1 hbq.2
  have e : rgb_to_hsl r g b =
      (⌊(rgb_to_hls ((r : ℚ) / 255) ((g : ℚ) / 255) ((b : ℚ) / 255)).1 * 360⌋,
        ⌊(rgb_to_hls ((r : ℚ) / 255) ((g : ℚ) / 255) ((b : ℚ) / 255)).2.2 * 100⌋,
        ⌊(rgb_to_hls ((r : ℚ) / 255) ((g : ℚ) / 255) ((b : ℚ) / 255)).2.1 * 100⌋) := by
    simp only [rgb_to_hsl]
    rw [pyTrunc_eq_floor _ (by positivity), pyTrunc_eq_floor _ (by positivity),
      pyTrunc_eq_floor _ (by positivity)]
  refine ⟨e, ?_⟩
  rw [e]
  refine ⟨Int.floor_nonneg.mpr (by positivity), ?_,
    Int.floor_nonneg.mpr (by positivity), ?_,
    Int.floor_nonneg.mpr (by positivity), ?_⟩
  · have : ⌊(rgb_to_hls ((r : ℚ) / 255) ((g : ℚ) / 255) ((b : ℚ) / 255)).1 *
        360⌋ < 360 := Int.floor_lt.mpr (by push_cast; nlinarith)
    omega
  · have h100 : (rgb_to_hls ((r : ℚ) / 255) ((g : ℚ) / 255)
        ((b : ℚ) / 255)).2.2 * 100 ≤ ((100 : ℤ) : ℚ) := by
      push_cast
      nlinarith
    exact le_trans (Int.floor_le_floor h100) (by simp)
  · have h100 : (rgb_to_hls ((r : ℚ) / 255) ((g : ℚ) / 255)
        ((b : ℚ) / 255)).2.1 * 100 ≤ ((100 : ℤ) : ℚ) := by
      push_cast
      nlinarith
    exact le_trans (Int.floor_le_floor h100) (by simp)

/-- C9 (witness): at the concrete triple `(255, 0, 1)` the exact hue is
`1529/1530` of a turn, i.e. 359.76°, and the emitted hue is 359 — truncated
down, not rounded up to 360 — with saturation 100 and lightness 50; the
bounds clause is the theorem applied at that triple. -/
theorem rgb_to_hsl_truncated_ranges_witness :
    rgb_to_hsl 255 0 1 = (359, 100, 50) ∧
      0 ≤ (rgb_to_hsl 255 0 1).1 ∧ (rgb_to_hsl 255 0 1).1 ≤ 359 :=
  ⟨by unfold rgb_to_hsl rgb_to_hls pyMod1 pyTrunc; norm_num,
    (rgb_to_hsl_truncated_ranges 255 0 1 (by decide) (by decide) (by decide)
      (by decide) (by decide) (by decide)).2.1,
    (rgb_to_hsl_truncated_ranges 255 0 1 (by decide) (by decide) (by decide)
      (by decide) (by decide) (by decide)).2.2.1⟩

/-! ## C8: the functional and bare patterns are not anchored at the end -/

/-- Whether a token sequence ends with a literal (the closing `)` of the
`rgb(...)` and `hsl(...)` patterns). -/
def endsLitB : List Tok → Bool
  | [] => false
  | [Tok.lit _] => true
  | _ :: g => endsLitB g

lemma endsLitB_cons (t : Tok) (x : Tok) (g : List Tok) :
    endsLitB (t :: x :: g) = endsLitB (x :: g) := by
  cases t <;> rfl

lemma endsLitB_singleton (t : Tok) (h : endsLitB [t] = true) :
    ∃ c, t = Tok.lit c := by
  cases t with
  | lit c => exact ⟨c, rfl⟩
  | ws => exact absurd h (by decide)
  | num => exact absurd h (by decide)
  | pct => exact absurd h (by decide)

lemma endsLitB_mem_lit (g : List Tok) (h : endsLitB g = true) :
    ∃ c, Tok.lit c ∈ g := by
  induction g with
  | nil => exact absurd h (by decide)
  | cons t g' ih =>
    cases g' with
    | nil =>
      obtain ⟨c, rfl⟩ := endsLitB_singleton t h
      exact ⟨c, by simp⟩
    | cons x g2 =>
      rw [endsLitB_cons] at h
      obtain ⟨c, hc⟩ := ih h
      exact ⟨c, by simp [hc]⟩

lemma runToks_nil_rest (g : List Tok) (vs : List ℤ) (r : List Char)
    (h : runToks g [] = some (vs, r)) : r = [] := by
  induction g generalizing vs with
  | nil =>
    simp only [runToks] at h
    obtain ⟨-, rfl⟩ := Prod.mk.injEq .. ▸ Option.some.inj h
    rfl
  | cons t g' ih =>
    cases t with
    | lit c => simp [runToks, runTok] at h
    | ws =>
      simp only [runToks, runTok, List.dropWhile_nil] at h
      rcases h2 : runToks g' [] with - | ⟨vs', r'⟩ <;> rw [h2] at h
      · simp at h
      · obtain rfl : r' = r := by
          have := Option.some.inj h
          exact congrArg Prod.snd this
        exact ih vs' h2
    | num => simp [runToks, runTok, takeNum] at h
    | pct =>
      simp only [runToks, runTok] at h
      rcases h2 : runToks g' [] with - | ⟨vs', r'⟩ <;> rw [h2] at h
      · simp at h
      · obtain rfl : r' = r := by
          have := Option.some.inj h
          exact congrArg Prod.snd this
        exact ih vs' h2

lemma runToks_nil_of_lit (g : List Tok) (c : Char) (hc : Tok.lit c ∈ g) :
    runToks g [] = none := by
  induction g with
  | nil => simp at hc
  | cons t g' ih =>
    rcases List.mem_cons.mp hc with h | h
    · subst h
      simp [runToks, runTok]
    · cases t with
      | lit d => simp [runToks, runTok]
      | ws => simp [runToks, runTok, ih h]
      | num => simp [runToks, runTok, takeNum]
      | pct => simp [runToks, runTok, ih h]

lemma dropWhile_ne_nil_append (p : Char → Bool) (l e : List Char)
    (h : l.dropWhile p ≠ []) :
    (l ++ e).dropWhile p = l.dropWhile p ++ e := by
  rw [List.dropWhile_append, if_neg (by simpa using h)]

lemma takeWhile_ne_nil_append (p : Char → Bool) (l e : List Char)
    (h : l.dropWhile p ≠ []) :
    (l ++ e).takeWhile p = l.takeWhile p := by
  have hsplit : l.takeWhile p ++ l.dropWhile p = l :=
    List.takeWhile_append_dropWhile p l
  have hlen : (l.takeWhile p).length + (l.dropWhile p).length = l.length := by
    rw [← List.length_append, hsplit]
  have hpos : 0 < (l.dropWhile p).length := List.length_pos.mpr h
  rw [List.takeWhile_append, if_neg (by omega)]

lemma takeNum_append (s e : List Char) (v : ℤ) (s1 : List Char)
    (h : takeNum s = some (v, s1)) (hne : s1 ≠ []) :
    takeNum (s ++ e) = some (v, s1 ++ e) := by
  unfold takeNum at h ⊢
  split at h
  · exact absurd h (by simp)
  · rename_i hemp
    simp only [Option.some.injEq, Prod.mk.injEq] at h
    obtain ⟨hv, hs1⟩ := h
    have hdrop : s.dropWhile isDigitChar ≠ [] := by
      rw [hs1]
      exact hne
    rw [takeWhile_ne_nil_append isDigitChar s e hdrop,
      dropWhile_ne_nil_append isDigitChar s e hdrop, if_neg hemp, hv, hs1]

lemma runTok_lit_append (c : Char) (s e s1 : List Char) (v : Option ℤ)
    (h : runTok (Tok.lit c) s = some (v, s1)) :
    runTok (Tok.lit c) (s ++ e) = some (v, s1 ++ e) := by
  cases s with
  | nil => simp [runTok] at h
  | cons x rest =>
    simp only [runTok, List.cons_append] at h ⊢
    by_cases hx : (x == c) = true
    · rw [if_pos hx] at h ⊢
      simp only [Option.some.injEq, Prod.mk.injEq] at h
      obtain ⟨rfl, rfl⟩ := h
      rfl
    · rw [if_neg hx] at h
      exact absurd h (by simp)

lemma runTok_append (t : Tok) (s e s1 : List Char) (v : Option ℤ)
    (h : runTok t s = some (v, s1)) (hne : s1 ≠ []) :
    runTok t (s ++ e) = some (v, s1 ++ e) := by
  cases t with
  | lit c => exact runTok_lit_append c s e s1 v h
  | ws =>
    simp only [runTok, Option.some.injEq, Prod.mk.injEq] at h ⊢
    obtain ⟨rfl, rfl⟩ := h
    exact ⟨rfl, dropWhile_ne_nil_append isSpaceChar s e hne⟩
  | num =>
    simp only [runTok] at h ⊢
    rcases htn : takeNum s with - | ⟨v', rest⟩ <;> rw [htn] at h
    · exact absurd h (by simp)
    · simp only [Option.some.injEq, Prod.mk.injEq] at h
      obtain ⟨rfl, rfl⟩ := h
      rw [takeNum_append s e v' rest htn hne]
  | pct =>
    cases s with
    | nil =>
      simp only [runTok, Option.some.injEq, Prod.mk.injEq] at h
      obtain ⟨-, rfl⟩ := h
      exact absurd rfl hne
    | cons x rest =>
      simp only [runTok, List.cons_append] at h ⊢
      by_cases hx : (x == '%') = true
      · rw [if_pos hx] at h ⊢
        simp only [Option.some.injEq, Prod.mk.injEq] at h
        obtain ⟨rfl, rfl⟩ := h
        rfl
      · rw [if_neg hx] at h ⊢
        simp only [Option.some.injEq, Prod.mk.injEq] at h
        obtain ⟨rfl, rfl⟩ := h
        rfl

lemma runToks_append (g : List Tok) :
    ∀ (s e : List Char) (vs : List ℤ) (rest : List Char),
      runToks g s = some (vs, rest) → (rest ≠ [] ∨ endsLitB g = true) →
      runToks g (s ++ e) = some (vs, rest ++ e) := by
  induction g with
  | nil =>
    intro s e vs rest h hc
    simp only [runToks, Option.some.injEq, Prod.mk.injEq] at h ⊢
    obtain ⟨rfl, rfl⟩ := h
    exact ⟨rfl, rfl⟩
  | cons t g' ih =>
    intro s e vs rest h hc
    simp only [runToks] at h ⊢
    rcases h1 : runTok t s with - | ⟨v, s1⟩ <;> simp only [h1] at h
    · exact absurd h (by simp)
    · rcases h2 : runToks g' s1 with - | ⟨vs', r⟩ <;> simp only [h2] at h
      · exact absurd h (by simp)
      · simp only [Option.some.injEq, Prod.mk.injEq] at h
        obtain ⟨hvs, hr⟩ := h
        subst hvs
        subst hr
        by_cases hs1 : s1 = []
        · subst hs1
          have hrnil : r = [] := runToks_nil_rest g' vs' r h2
          subst hrnil
          have hend : endsLitB (t :: g') = true := by
            rcases hc with hc | hc
            · exact absurd rfl hc
            · exact hc
          cases g' with
          | nil =>
            obtain ⟨c, rfl⟩ := endsLitB_singleton t hend
            rw [runTok_lit_append c s e [] v h1]
            simp only [runToks, Option.some.injEq, Prod.mk.injEq] at h2
            obtain ⟨rfl, -⟩ := h2
            simp [runToks]
          | cons x g2 =>
            rw [endsLitB_cons] at hend
            obtain ⟨c, hcmem⟩ := endsLitB_mem_lit (x :: g2) hend
            rw [runToks_nil_of_lit (x :: g2) c hcmem] at h2
            exact absurd h2 (by simp)
        · have hstep := runTok_append t s e s1 v h1 hs1
          have hcond : r ≠ [] ∨ endsLitB g' = true := by
            rcases hc with hc | hc
            · exact Or.inl hc
            · cases g' with
              | nil =>
                left
                simp only [runToks, Option.some.injEq, Prod.mk.injEq] at h2
                obtain ⟨-, hr2⟩ := h2
                rw [← hr2]
                exact hs1
              | cons x g2 =>
                right
                rw [endsLitB_cons] at hc
                exact hc
          simp only [hstep, ih s1 e vs' r h2 hcond]

lemma matchRgbCore_append_aux (t e : List Char) (v : ℤ × ℤ × ℤ)
    (rest : List Char) (h : matchRgbCore t = some (v, rest)) :
    matchRgbCore (t ++ e) = some (v, rest ++ e) := by
  unfold matchRgbCore at h ⊢
  rcases hr : runToks rgbToks t with - | ⟨vs, r⟩ <;> simp only [hr] at h
  · exact absurd h (by simp)
  · rcases vs with - | ⟨a, vs⟩
    · simp at h
    rcases vs with - | ⟨b, vs⟩
    · simp at h
    rcases vs with - | ⟨c, vs⟩
    · simp at h
    rcases vs with - | ⟨d, vs⟩
    · simp only [Option.some.injEq, Prod.mk.injEq] at h
      obtain ⟨rfl, rfl⟩ := h
      simp only [runToks_append rgbToks t e [a, b, c] r hr (Or.inr (by decide))]
    · simp at h

lemma matchHslCore_append_aux (t e : List Char) (v : ℤ × ℤ × ℤ)
    (rest : List Char) (h : matchHslCore t = some (v, rest)) :
    matchHslCore (t ++ e) = some (v, rest ++ e) := by
  unfold matchHslCore at h ⊢
  rcases hr : runToks hslToks t with - | ⟨vs, r⟩ <;> simp only [hr] at h
  · exact absurd h (by simp)
  · rcases vs with - | ⟨a, vs⟩
    · simp at h
    rcases vs with - | ⟨b, vs⟩
    · simp at h
    rcases vs with - | ⟨c, vs⟩
    · simp at h
    rcases vs with - | ⟨d, vs⟩
    · simp only [Option.some.injEq, Prod.mk.injEq] at h
      obtain ⟨rfl, rfl⟩ := h
      simp only [runToks_append hslToks t e [a, b, c] r hr (Or.inr (by decide))]
    · simp at h

lemma matchTriple_append_aux (t e : List Char) (v : ℤ × ℤ × ℤ) (x : Char)
    (rest : List Char) (h : matchTriple t = some (v, x :: rest)) :
    matchTriple (t ++ e) = some (v, x :: (rest ++ e)) := by
  unfold matchTriple at h ⊢
  rcases hr : runToks tripleToks t with - | ⟨vs, r⟩ <;> simp only [hr] at h
  · exact absurd h (by simp)
  · rcases vs with - | ⟨a, vs⟩
    · simp at h
    rcases vs with - | ⟨b, vs⟩
    · simp at h
    rcases vs with - | ⟨c, vs⟩
    · simp at h
    rcases vs with - | ⟨d, vs⟩
    · simp only [Option.some.injEq, Prod.mk.injEq] at h
      obtain ⟨rfl, rfl⟩ := h
      simp only [runToks_append tripleToks t e [a, b, c] (x :: rest) hr
        (Or.inl (by simp)), List.cons_append]
    · simp at h

lemma runToks_lit_head (c : Char) (g : List Tok) (t : List Char)
    (p : List ℤ × List Char) (h : runToks (Tok.lit c :: g) t = some p) :
    ∃ t2, t = c :: t2 := by
  cases t with
  | nil => simp [runToks, runTok] at h
  | cons x t2 =>
    refine ⟨t2, ?_⟩
    by_cases hx : x = c
    · rw [hx]
    · simp [runToks, runTok, hx] at h

lemma matchHexFull_r_cons (t2 : List Char) :
    matchHexFull ('r' :: t2) = none := by
  simp [matchHexFull, isLowerHexChar]

/-- C8 (claim): the functional `rgb(...)`, bare comma triple and `hsl(...)`
matchers are not anchored at the end of the string: appending arbitrary
characters to a matched string leaves the match — and the captured
integers — unchanged (for the bare triple this holds whenever the match
already stopped before the end of the string, since an appended digit
would extend its last captured number); consequently any normalised string
that begins with a valid `rgb(...)` form followed by arbitrary trailing
characters is recognized with format `"rgb"` and the three parsed
integers. -/
theorem parse_color_not_anchored :
    (∀ t e v rest, matchRgbCore t = some (v, rest) →
      matchRgbCore (t ++ e) = some (v, rest ++ e)) ∧
    (∀ t e v rest, matchHslCore t = some (v, rest) →
      matchHslCore (t ++ e) = some (v, rest ++ e)) ∧
    (∀ t e v x rest, matchTriple t = some (v, x :: rest) →
      matchTriple (t ++ e) = some (v, x :: (rest ++ e))) ∧
    (∀ t e v rest, matchRgbCore t = some (v, rest) →
      parseNormalized (t ++ e) = some ("rgb", v.1, v.2.1, v.2.2)) := by
  refine ⟨fun t e v rest h => matchRgbCore_append_aux t e v rest h,
    fun t e v rest h => matchHslCore_append_aux t e v rest h,
    fun t e v x rest h => matchTriple_append_aux t e v x rest h,
    fun t e v rest h => ?_⟩
  obtain ⟨v1, v2, v3⟩ := v
  have hhead : ∃ t2, t = 'r' :: t2 := by
    have h2 := h
    unfold matchRgbCore at h2
    rcases hr : runToks rgbToks t with - | ⟨vs, r⟩
    · rw [hr] at h2
      exact absurd h2 (by simp)
    · exact runToks_lit_head 'r' _ t (vs, r) hr
  obtain ⟨t2, rfl⟩ := hhead
  have happ := matchRgbCore_append_aux ('r' :: t2) e (v1, v2, v3) rest h
  simp only [List.cons_append] at happ
  simp only [parseNormalized, List.cons_append, matchHexFull_r_cons, happ]

/-- C8 (witness): the valid form `rgb(1, 2, 3)` followed by the trailing
garbage `zzz` is still recognized as `rgb` with values 1, 2, 3. -/
theorem parse_color_not_anchored_witness :
    parseNormalized ("rgb(1, 2, 3)".data ++ "zzz".data) =
      some ("rgb", 1, 2, 3) :=
  parse_color_not_anchored.2.2.2 "rgb(1, 2, 3)".data "zzz".data (1, 2, 3) []
    (by decide)
